import Mathlib

/-!
Verification of the requestrepo in-memory cache, DNS authority, ACME
challenge handler, HTTP capture and WebSocket fan-out, as implemented in
the Rust sources (`src/cache/mod.rs`, `src/certs/challenge.rs`,
`src/dns/mod.rs`, `src/http/routes.rs`, `src/http/routes_v2.rs`,
`src/http/websocket.rs`), against the natural-language specification.

The Rust data structures are embedded shallowly:
`HashMap` and `LinkedHashMap` become association lists (the latter keeps
insertion order, so the list order models the LRU order), `VecDeque`
becomes `List`, `usize` arithmetic that can wrap (`fetch_add`/`fetch_sub`
on `AtomicUsize`) is taken modulo `2^64`, saturating operations use
truncated `Nat` subtraction and a capped addition.  External libraries
(gzip via `flate2`, JSON via `serde_json`, base64) are threaded through as
explicit function parameters; their contracts (e.g. that decompression
inverts compression) appear as hypotheses where a claim depends on them.
-/

/-- Split a character list at every occurrence of `c`; models Rust's
`str::split(c)` (structural recursion so that closed evaluations reduce). -/
def splitOnChar (c : Char) : List Char → List (List Char)
  | [] => [[]]
  | x :: xs =>
    let r := splitOnChar c xs
    if x = c then [] :: r
    else
      match r with
      | [] => [[x]]
      | y :: ys => (x :: y) :: ys

/-- Rust `str::split` on a single-character pattern, as a `String` list. -/
def strSplitOn (s : String) (c : Char) : List String :=
  (splitOnChar c s.data).map String.mk

/-- Rust `str::starts_with`. -/
def strStartsWith (s p : String) : Bool := p.data.isPrefixOf s.data

/-- Rust `str::ends_with`. -/
def strEndsWith (s p : String) : Bool := p.data.isSuffixOf s.data

/-- Rust `str::to_lowercase` (per-character, which coincides with Rust on
the ASCII data these code paths handle). -/
def strToLower (s : String) : String := String.mk (s.data.map Char.toLower)

/-- `usize` modulus: Rust's `AtomicUsize::fetch_add`/`fetch_sub` wrap at
`2^64` on the 64-bit targets this service is built for. -/
def USIZE : Nat := 18446744073709551616

/-- Wrapping addition on `usize` (`fetch_add`). -/
def usizeAdd (a b : Nat) : Nat := (a + b) % USIZE

/-- Wrapping subtraction on `usize` (`fetch_sub`). -/
def usizeSub (a b : Nat) : Nat := (a + (USIZE - b % USIZE)) % USIZE

/-- Saturating addition on `usize` (`usize::saturating_add`). -/
def usizeSatAdd (a b : Nat) : Nat := min (a + b) (USIZE - 1)

/-- Lookup in an association list; models `HashMap::get` /
`LinkedHashMap::get` (keys are unique in every state the code builds). -/
def assocFind {α : Type} : List (String × α) → String → Option α
  | [], _ => none
  | (k, v) :: rest, key => if k = key then some v else assocFind rest key

/-- Insert-or-replace in an association list; models `HashMap::insert`
(replace in place) and `HashMap::entry(..).or_insert(..)` updates. -/
def assocInsert {α : Type} : List (String × α) → String → α → List (String × α)
  | [], k, v => [(k, v)]
  | (k', v') :: rest, k, v =>
    if k' = k then (k, v) :: rest else (k', v') :: assocInsert rest k v

/-- Remove the first binding of a key; models map removal, and is used to
model `LinkedHashMap::get_refresh` (remove then re-append at the tail). -/
def assocRemove {α : Type} : List (String × α) → String → List (String × α)
  | [], _ => []
  | (k', v') :: rest, k =>
    if k' = k then rest else (k', v') :: assocRemove rest k

/-- A compressed key-value entry (`struct KvEntry` in `cache/mod.rs`):
gzip-compressed bytes plus the original size used for quota tracking. -/
structure KvEntry where
  data : List Nat
  uncompressed_size : Nat
deriving DecidableEq, Repr

/-- A per-tenant request list (`struct RequestList` in `cache/mod.rs`). -/
structure RequestList where
  items : List String
  total_size : Nat
deriving DecidableEq, Repr

/-- The shared cache (`struct Cache` in `cache/mod.rs`).  The
`request_store`'s list order models the `LinkedHashMap` insertion/LRU
order.  `max_memory` is the startup-computed limit; `current_memory` the
atomic counter. -/
structure CacheState where
  kv_store : List (String × KvEntry)
  request_store : List (String × RequestList)
  subdomain_sizes : List (String × Nat)
  current_memory : Nat
  max_memory : Nat
deriving DecidableEq, Repr

/-- Configuration values read from `CONFIG` by the modelled code paths.
`threshold` abstracts the floating-point computation
`(max_memory as f64 * cache_max_memory_pct) as usize` in
`maybe_evict_requests`; the claims under verification never depend on its
exact value. -/
structure Config where
  max_subdomain_size_bytes : Nat
  max_requests_per_session : Nat
  server_ip : String
  server_domain : String
  include_server_domain : Bool
  threshold : Nat → Nat

/-- Errors surfaced by the modelled cache operations (`anyhow` errors in
the source, distinguished here by their construction site). -/
inductive CacheError where
  | quotaExceeded (subdomain : String)
  | decodeError
  | insertFailed
deriving DecidableEq, Repr

/-- `extract_subdomain_from_key` from `cache/mod.rs`: maps a cache key to
the tenant that owns it for quota accounting. -/
def extract_subdomain_from_key (key : String) : Option String :=
  if strStartsWith key "files:" || strStartsWith key "file:" then
    (strSplitOn key ':').get? 1
  else if strStartsWith key "dns:" then
    let parts := strSplitOn key ':'
    if parts.length = 2 then parts.get? 1
    else if 3 ≤ parts.length then
      let domainParts := strSplitOn ((parts.get? 2).getD "") '.'
      if 2 ≤ domainParts.length then domainParts.get? 1 else none
    else none
  else none

/-- `Cache::get_subdomain_size`. -/
def getSubdomainSize (st : CacheState) (subdomain : String) : Nat :=
  (assocFind st.subdomain_sizes subdomain).getD 0

/-- `Cache::update_subdomain_size`: `or_insert(0)` then saturating add or
saturating sub depending on the sign of `delta`. -/
def updateSubdomainSize (sizes : List (String × Nat)) (subdomain : String)
    (delta : Int) : List (String × Nat) :=
  let cur := (assocFind sizes subdomain).getD 0
  let nv := if 0 ≤ delta then usizeSatAdd cur delta.toNat else cur - (-delta).toNat
  assocInsert sizes subdomain nv

/-- The unconditional part of `Cache::set` after the quota gate:
compress, subtract the replaced entry's sizes, insert, add the new
entry's sizes. -/
def setCore (compress : String → List Nat) (st : CacheState)
    (key value : String) (uncompressed_size : Nat) : CacheState :=
  let compressed := compress value
  let compressed_size := compressed.length
  let memAndSizes :=
    match assocFind st.kv_store key with
    | some old =>
      (usizeSub st.current_memory old.data.length,
       match extract_subdomain_from_key key with
       | some s =>
         updateSubdomainSize st.subdomain_sizes s (-(old.uncompressed_size : Int))
       | none => st.subdomain_sizes)
    | none => (st.current_memory, st.subdomain_sizes)
  let store := assocInsert st.kv_store key ⟨compressed, uncompressed_size⟩
  let mem := usizeAdd memAndSizes.1 compressed_size
  let sizes :=
    match extract_subdomain_from_key key with
    | some s => updateSubdomainSize memAndSizes.2 s (uncompressed_size : Int)
    | none => memAndSizes.2
  { st with kv_store := store, subdomain_sizes := sizes, current_memory := mem }

/-- `Cache::set`: per-tenant quota check (on the stored total, before any
replacement accounting), then compress and write. -/
def Cache.set (compress : String → List Nat) (cfg : Config) (st : CacheState)
    (key value : String) : Except CacheError CacheState :=
  let uncompressed_size := value.utf8ByteSize
  match extract_subdomain_from_key key with
  | some s =>
    if cfg.max_subdomain_size_bytes < getSubdomainSize st s + uncompressed_size then
      Except.error (CacheError.quotaExceeded s)
    else Except.ok (setCore compress st key value uncompressed_size)
  | none => Except.ok (setCore compress st key value uncompressed_size)

/-- `Cache::get`: look up and decompress (a decompression failure is the
`decoder.read_to_string(..)?` error path). -/
def Cache.get (decompress : List Nat → Option String) (st : CacheState)
    (key : String) : Except CacheError (Option String) :=
  match assocFind st.kv_store key with
  | some entry =>
    match decompress entry.data with
    | some s => Except.ok (some s)
    | none => Except.error CacheError.decodeError
  | none => Except.ok none

/-- Stand-in codec for the gzip compressor used in closed evaluations:
one byte-sized cell per character. -/
def demoCompress (s : String) : List Nat := s.data.map Char.toNat

/-- Inverse of `demoCompress`. -/
def demoDecompress (l : List Nat) : Option String :=
  some (String.mk (l.map Char.ofNat))

/-- Total byte size of the items of a list, in the sense of Rust
`String::len` (UTF-8 bytes); used for memory-accounting invariants. -/
def listBytes (l : List String) : Nat := (l.map String.utf8ByteSize).sum

/-- Result of one round-robin sweep of `Cache::evict_oldest_requests`'s
inner `for` loop. -/
structure PassOut where
  store : List (String × RequestList)
  freed : Nat
  progress : Bool
  count : Nat
  empties : List String

/-- One round-robin pass of `Cache::evict_oldest_requests`: walk the
tenant lists in `LinkedHashMap` order, popping one head per list until
`target` bytes (cumulatively) are freed; record lists that become empty. -/
def evictPass (target : Nat) : List (String × RequestList) → Nat → PassOut
  | [], freed => ⟨[], freed, false, 0, []⟩
  | (k, e) :: rest, freed =>
    if target ≤ freed then ⟨(k, e) :: rest, freed, false, 0, []⟩
    else
      match e.items with
      | [] =>
        let r := evictPass target rest freed
        ⟨(k, e) :: r.store, r.freed, r.progress, r.count, r.empties⟩
      | oldest :: tl =>
        let sz := oldest.utf8ByteSize
        let e' : RequestList := ⟨tl, e.total_size - sz⟩
        let emp := if tl.isEmpty then [k] else []
        let r := evictPass target rest (freed + sz)
        ⟨(k, e') :: r.store, r.freed, true, r.count + 1, emp ++ r.empties⟩

/-- The `while freed < bytes_to_free` loop of
`Cache::evict_oldest_requests`, with explicit fuel (each productive pass
pops at least one item, so `totalItems + 1` fuel always suffices). -/
def evictLoop (target : Nat) :
    Nat → List (String × RequestList) → Nat → Nat → List String →
    List (String × RequestList) × Nat × Nat × List String
  | 0, store, freed, count, empties => (store, freed, count, empties)
  | fuel + 1, store, freed, count, empties =>
    if freed < target then
      let r := evictPass target store freed
      if r.progress then
        evictLoop target fuel r.store r.freed (count + r.count) (empties ++ r.empties)
      else (r.store, r.freed, count + r.count, empties ++ r.empties)
    else (store, freed, count, empties)

/-- Total number of queued requests across all tenants. -/
def totalItems (store : List (String × RequestList)) : Nat :=
  (store.map (fun p => p.2.items.length)).sum

/-- `Cache::evict_oldest_requests`: round-robin sweeps popping list heads
until `bytes_to_free` bytes are freed or nothing is left, then removal of
the lists that became empty and the memory-counter subtraction. -/
def Cache.evict_oldest_requests (st : CacheState) (bytes_to_free : Nat) : CacheState :=
  let r := evictLoop bytes_to_free (totalItems st.request_store + 1)
    st.request_store 0 0 []
  let store := r.1.filter (fun p => !(r.2.2.2.contains p.1))
  { st with
    request_store := store,
    current_memory :=
      if 0 < r.2.2.1 then usizeSub st.current_memory r.2.1 else st.current_memory }

/-- `Cache::maybe_evict_requests`: trigger eviction when the memory
counter exceeds the configured threshold, freeing the excess plus a 10%
buffer. -/
def Cache.maybe_evict (cfg : Config) (st : CacheState) : CacheState :=
  let threshold := cfg.threshold st.max_memory
  if threshold < st.current_memory then
    Cache.evict_oldest_requests st
      ((st.current_memory - threshold) + st.max_memory / 10)
  else st

/-- `Cache::rpush`: possible eviction, insert-if-absent, `get_refresh`
(move the tenant to the LRU tail), append, pop the head if the list now
exceeds `max_requests_per_session`, update the memory counter, and return
the resulting list length. -/
def Cache.rpush (cfg : Config) (st : CacheState) (key value : String) :
    Except CacheError (CacheState × Nat) :=
  let value_size := value.utf8ByteSize
  let st := Cache.maybe_evict cfg st
  let store :=
    if (assocFind st.request_store key).isSome then st.request_store
    else st.request_store ++ [(key, ⟨[], 0⟩)]
  match assocFind store key with
  | none => Except.error CacheError.insertFailed
  | some entry =>
    let entry1 : RequestList := ⟨entry.items ++ [value], entry.total_size + value_size⟩
    let popped :=
      if cfg.max_requests_per_session < entry1.items.length then
        match entry1.items with
        | old :: tl =>
          (RequestList.mk tl (entry1.total_size - old.utf8ByteSize), old.utf8ByteSize)
        | [] => (entry1, 0)
      else (entry1, 0)
    let store' := assocRemove store key ++ [(key, popped.1)]
    let mem1 := usizeAdd st.current_memory value_size
    let mem2 := if 0 < popped.2 then usizeSub mem1 popped.2 else mem1
    Except.ok ({ st with request_store := store', current_memory := mem2 },
      popped.1.items.length)

/-- `Cache::llen`. -/
def Cache.llen (st : CacheState) (key : String) : Nat :=
  ((assocFind st.request_store key).map (fun e => e.items.length)).getD 0

/-- Cast of a (possibly negative) `isize` value to `usize`, as Rust's
`as usize` does (two's-complement reinterpretation). -/
def intToUsize (i : Int) : Nat := (i % (USIZE : Int)).toNat

/-- `Cache::lrange`: inclusive range with negative indices counted from
the end; the adjusted `stop` is cast `as usize` (wrapping for negative
values) and clamped by `min(.., len - 1)` with a saturating `len - 1`. -/
def Cache.lrange (st : CacheState) (key : String) (start stop : Int) : List String :=
  match assocFind st.request_store key with
  | some entry =>
    let len : Int := entry.items.length
    let start1 := if start < 0 then max (len + start) 0 else start
    let stop1 := if stop < 0 then len + stop else stop
    let start2 := intToUsize start1
    let stop2 := min (intToUsize stop1) (entry.items.length - 1)
    if start2 ≤ stop2 ∧ start2 < entry.items.length then
      (entry.items.drop start2).take (stop2 - start2 + 1)
    else []
  | none => []

/-- Iterated `rpush` of a list of payloads to one key, collecting the
returned lengths. -/
def Cache.pushSeq (cfg : Config) (st : CacheState) (key : String) :
    List String → Except CacheError (CacheState × List Nat)
  | [] => Except.ok (st, [])
  | v :: rest =>
    match Cache.rpush cfg st key v with
    | Except.error e => Except.error e
    | Except.ok (st', n) =>
      match Cache.pushSeq cfg st' key rest with
      | Except.error e => Except.error e
      | Except.ok (st'', ns) => Except.ok (st'', n :: ns)

/-- The items currently queued under a key (empty when absent). -/
def itemsOf (st : CacheState) (key : String) : List String :=
  ((assocFind st.request_store key).map RequestList.items).getD []

/-- `DnsChallengeHandler::set_txt` from `certs/challenge.rs`: normalise
the challenge domain (ensure trailing dot, lowercase) and store the token
under `dns:TXT:<domain>` via `Cache::set`. -/
def DnsChallengeHandler.set_txt (compress : String → List Nat) (cfg : Config)
    (st : CacheState) (challenge_domain token : String) :
    Except CacheError CacheState :=
  let domain :=
    if strEndsWith challenge_domain "." then strToLower challenge_domain
    else strToLower (challenge_domain ++ ".")
  let key := "dns:TXT:" ++ domain
  Cache.set compress cfg st key token

/-! ### DNS authority (`dns/mod.rs`) -/

/-- Response codes produced by the modelled handlers. -/
inductive RCode where
  | noerror
  | nxdomain
deriving DecidableEq, Repr

/-- One A answer record: owner name, TTL, IPv4 RDATA octets. -/
structure ARecord where
  name : String
  ttl : Nat
  rdata : Nat × Nat × Nat × Nat
deriving DecidableEq, Repr

/-- The part of a DNS response the A handler determines: response code
and answer section. -/
structure AResponse where
  rcode : RCode
  answers : List ARecord
deriving DecidableEq, Repr

/-- One dotted octet of an IPv4 literal, per Rust's `Ipv4Addr` parser:
decimal digits only, no empty part, no leading zero, value ≤ 255. -/
def parseOctet (s : String) : Option Nat :=
  let cs := s.data
  if cs.isEmpty then none
  else if ¬ cs.all Char.isDigit then none
  else if 1 < cs.length ∧ cs.head? = some '0' then none
  else
    let n := cs.foldl (fun acc c => acc * 10 + (c.toNat - 48)) 0
    if n ≤ 255 then some n else none

/-- Rust `"a.b.c.d".parse::<Ipv4Addr>()`. -/
def parseIpv4 (s : String) : Option (Nat × Nat × Nat × Nat) :=
  match strSplitOn s '.' with
  | [a, b, c, d] =>
    match parseOctet a, parseOctet b, parseOctet c, parseOctet d with
    | some a, some b, some c, some d => some (a, b, c, d)
    | _, _, _, _ => none
  | _ => none

/-- `self.cache.get(&dns_key).await.unwrap_or(None)`: a cache error is
collapsed to "no override". -/
def dnsCustomRecord (decompress : List Nat → Option String) (st : CacheState)
    (key : String) : Option String :=
  match Cache.get decompress st key with
  | Except.ok v => v
  | Except.error _ => none

/-- `DnsRequestHandler::handle_a_record` (`dns/mod.rs`): look up
`dns:A:<qname>`; an override that parses as IPv4 yields one answer with
TTL 300; an unparseable override yields no answer; with no override the
configured `server_ip` (defaulting to `127.0.0.1` if unparseable) is
answered with TTL 300.  The response code is `NOERROR` throughout. -/
def handle_a_record (decompress : List Nat → Option String) (cfg : Config)
    (st : CacheState) (name : String) : AResponse :=
  let dns_key := "dns:A:" ++ name
  let custom_record := dnsCustomRecord decompress st dns_key
  match custom_record with
  | some value =>
    match parseIpv4 value with
    | some ip => ⟨RCode.noerror, [⟨name, 300, ip⟩]⟩
    | none => ⟨RCode.noerror, []⟩
  | none =>
    let ip := (parseIpv4 cfg.server_ip).getD (127, 0, 0, 1)
    ⟨RCode.noerror, [⟨name, 300, ip⟩]⟩

/-! ### HTTP capture (`http/routes.rs::catch_all`) -/

/-- The peer address of the TCP connection, as provided to the handler by
`axum::extract::ConnectInfo`. -/
structure SocketAddr where
  ip : String
  port : Nat
deriving DecidableEq, Repr

/-- Ambient effects of the capture path: generated request id, current
timestamp, base64 encoder, geo lookup. -/
structure CatchAllEnv where
  requestId : String
  timestamp : Int
  base64 : List Nat → String
  lookupCountry : String → Option String

/-- Capitalise one `-`-separated header-name part (the
`first.to_uppercase().chain(chars)` step; single-character uppercasing,
which coincides with Rust on ASCII header names). -/
def capitalizeHeaderPart (part : String) : String :=
  match part.data with
  | [] => ""
  | c :: rest => String.mk (c.toUpper :: rest)

/-- Join strings with `-`; Rust's `.collect::<Vec<_>>().join("-")`. -/
def joinDash : List String → String
  | [] => ""
  | [s] => s
  | s :: rest => s ++ "-" ++ joinDash rest

/-- Title-casing of a header name, e.g. `accept-encoding` to
`Accept-Encoding`. -/
def titleCaseHeaderName (name : String) : String :=
  joinDash ((strSplitOn name '-').map capitalizeHeaderPart)

/-- `HeaderMap::get` on the lowercased names axum stores. -/
def headerGet (headers : List (String × String)) (name : String) : Option String :=
  (headers.find? (fun p => p.1 == name)).map Prod.snd

/-- The stored `http` observation (`HttpRequestLog` in `models/mod.rs`;
the Rust field `type` is called `rtype` here). -/
structure HttpRequestLog where
  _id : String
  rtype : String
  raw : String
  uid : String
  method : String
  path : String
  query : Option String
  fragment : Option String
  url : String
  protocol : String
  headers : List (String × String)
  date : Int
  ip : Option String
  port : Option Nat
  country : Option String

/-- Construction of the `http` observation in `routes.rs::catch_all`
(lines 86–158): the client IP and port are taken from the `ConnectInfo`
peer address; headers only influence the header map and the reconstructed
URL scheme. -/
def buildHttpRequestLog (env : CatchAllEnv) (addr : SocketAddr)
    (host uriPath : String) (uriQuery : Option String) (method : String)
    (headers : List (String × String)) (bodyBytes : List Nat)
    (subdomain : String) : HttpRequestLog :=
  let client_ip := addr.ip
  let client_port := some addr.port
  let country := env.lookupCountry client_ip
  let query_string := uriQuery.map (fun s => "?" ++ s)
  let scheme :=
    if ((headerGet headers "x-forwarded-proto").map (fun s => s == "https")).getD false
    then "https" else "http"
  let full_url := scheme ++ "://" ++ host ++ uriPath ++ query_string.getD ""
  { _id := env.requestId
    rtype := "http"
    raw := env.base64 bodyBytes
    uid := subdomain
    method := method
    path := uriPath
    query := query_string
    fragment := none
    url := full_url
    protocol := "HTTP/1.1"
    headers := headers.map (fun p => (titleCaseHeaderName p.1, p.2))
    date := env.timestamp
    ip := some client_ip
    port := client_port
    country := country }

/-! ### WebSocket fan-out (`http/websocket.rs::handle_socket_v2`) -/

/-- A message on the broadcast bus (`CacheMessage` in `models/mod.rs`). -/
structure CacheMessage where
  cmd : String
  subdomain : String
  data : String
deriving DecidableEq, Repr

/-- The JSON frame written to a socket by the fan-out task. -/
structure WsFrame (α : Type) where
  cmd : String
  data : α
  subdomain : String
deriving DecidableEq, Repr

/-- The `send_task` body of `handle_socket_v2` (lines 141–163): when the
socket's subscription set contains the message's subdomain, forward a
frame with the message's `cmd` as-is and its `data` parsed as JSON
(`serde_json::from_str(..).unwrap_or(Value::Null)`); otherwise forward
nothing.  The JSON value type and parser are parameters (`serde_json`). -/
def forward_broadcast {α : Type} (parseJson : String → Option α)
    (nullValue : α) (sessions : List String) (msg : CacheMessage) :
    Option (WsFrame α) :=
  if sessions.contains msg.subdomain then
    some ⟨msg.cmd, (parseJson msg.data).getD nullValue, msg.subdomain⟩
  else none

/-! ### File-tree endpoints (`http/routes_v2.rs`, `utils/mod.rs`) -/

/-- A response fixture (`models::Response`). -/
structure ResponseFixture where
  raw : String
  headers : List (String × String)
  status_code : Nat
deriving DecidableEq, Repr

/-- A tenant's file tree (`models::FileTree`, a flattened map from path
to fixture). -/
structure FileTree where
  files : List (String × ResponseFixture)
deriving DecidableEq, Repr

/-- The default tree written by `utils::write_basic_file`: a single
`index.html` fixture whose body is the base64 of
"Request logged successfully.". -/
def defaultFileTree (b64e : String → String) (cfg : Config) : FileTree :=
  let hdrs :=
    [("Access-Control-Allow-Origin", "*"),
     ("Content-Type", "text/html; charset=utf-8")] ++
    (if cfg.include_server_domain then [("Server", cfg.server_domain)] else [])
  ⟨[("index.html", ⟨b64e "Request logged successfully.", hdrs, 200⟩)]⟩

/-- `utils::write_basic_file`: serialise the default tree and store it
under `files:<subdomain>` via `Cache::set`. -/
def write_basic_file (compress : String → List Nat)
    (serialize : FileTree → String) (b64e : String → String) (cfg : Config)
    (st : CacheState) (subdomain : String) : Except CacheError CacheState :=
  Cache.set compress cfg st ("files:" ++ subdomain)
    (serialize (defaultFileTree b64e cfg))

/-- The tree-fetching step shared by the v2 files handlers:
`cache.get(..)` then `serde_json::from_str::<FileTree>(..).unwrap_or` an
empty tree (errors and missing keys also give the empty tree). -/
def fetchFileTree (decompress : List Nat → Option String)
    (parseTree : String → Option FileTree) (st : CacheState) (key : String) :
    FileTree :=
  match Cache.get decompress st key with
  | Except.ok (some s) => (parseTree s).getD ⟨[]⟩
  | _ => ⟨[]⟩

/-- `routes_v2::get_files` (post-authentication): fetch the tree; if it
is empty or lacks `index.html`, run `write_basic_file` (its error, e.g. a
quota failure, is discarded by `let _ = ..`) and re-fetch. -/
def get_files_v2 (compress : String → List Nat)
    (decompress : List Nat → Option String) (serialize : FileTree → String)
    (parseTree : String → Option FileTree) (b64e : String → String)
    (cfg : Config) (st : CacheState) (subdomain : String) :
    CacheState × FileTree :=
  let files_key := "files:" ++ subdomain
  let files := fetchFileTree decompress parseTree st files_key
  if files.files.isEmpty ∨ assocFind files.files "index.html" = none then
    let st' :=
      match write_basic_file compress serialize b64e cfg st subdomain with
      | Except.ok s => s
      | Except.error _ => st
    (st', fetchFileTree decompress parseTree st' files_key)
  else (st, files)

/-- `routes_v2::update_files` (post-authentication): serialise the given
tree and store it with `let _ = state.cache.set(..)` (errors discarded),
then respond 200.  There is no `index.html` check on this path. -/
def update_files_v2 (compress : String → List Nat)
    (serialize : FileTree → String) (cfg : Config) (st : CacheState)
    (subdomain : String) (files : FileTree) : CacheState × Nat :=
  let st' :=
    match Cache.set compress cfg st ("files:" ++ subdomain) (serialize files) with
    | Except.ok s => s
    | Except.error _ => st
  (st', 200)

/-! ### Concrete data for closed evaluations -/

/-- Empty cache. -/
def emptyCache : CacheState := ⟨[], [], [], 0, 0⟩

/-- Default-like configuration: 10 MiB per-tenant quota. -/
def cfg10MB : Config := ⟨10485760, 100, "127.0.0.1", "example.com", false, fun _ => 0⟩

/-- Configuration with `max_requests_per_session = 2` and a threshold
high enough that eviction never fires in the closed evaluations. -/
def cfgCap2 : Config := ⟨100, 2, "127.0.0.1", "example.com", false, fun _ => 1000⟩

/-- Configuration with a 10-byte per-tenant quota. -/
def cfgQuota10 : Config := ⟨10, 100, "127.0.0.1", "example.com", false, fun _ => 0⟩

/-- A stored 8-byte entry owned by tenant `sub`. -/
def c4entryOld : KvEntry := ⟨demoCompress "12345678", 8⟩

/-- State where `files:sub` holds an 8-byte value and tenant `sub`'s
accounted size is 8. -/
def c4state : CacheState := ⟨[("files:sub", c4entryOld)], [], [("sub", 8)], 0, 0⟩

/-- State with one KV entry and two tenant request lists. -/
def c5state : CacheState :=
  ⟨[("files:x", ⟨[1, 2], 2⟩)],
   [("requests:a", ⟨["p", "q"], 2⟩), ("requests:b", ⟨["r"], 1⟩)],
   [("x", 2)], 10, 100⟩

/-- State with an A override `5.6.7.8` for `test.abcd1234.example.com.`. -/
def c7state : CacheState :=
  ⟨[("dns:A:test.abcd1234.example.com.", ⟨demoCompress "5.6.7.8", 7⟩)], [], [], 0, 0⟩

/-- State with a `%`-separated A override for the same name. -/
def c7stateSplit : CacheState :=
  ⟨[("dns:A:test.abcd1234.example.com.", ⟨demoCompress "1.2.3.4%5.6.7.8", 15⟩)],
   [], [], 0, 0⟩

/-- A file tree without `index.html`. -/
def c8treeNoIndex : FileTree := ⟨[("a.html", ⟨"QQ==", [], 200⟩)]⟩

/-- Stand-in base64 encoder for closed evaluations. -/
def demoB64 : String → String := fun s => s

/-- The default tree for `cfg10MB` under the demo encoder. -/
def c8defaultTree : FileTree := defaultFileTree demoB64 cfg10MB

/-- Stand-in (injective on the trees used here) for
`serde_json::to_string` on file trees. -/
def demoSerializeTree (t : FileTree) : String :=
  if t = c8treeNoIndex then "T1" else if t = c8defaultTree then "T0" else "TX"

/-- Stand-in for `serde_json::from_str::<FileTree>`, inverse of
`demoSerializeTree` on its range. -/
def demoParseTree (s : String) : Option FileTree :=
  if s = "T1" then some c8treeNoIndex
  else if s = "T0" then some c8defaultTree
  else none

/-- State where `files:sub0` holds the serialised default tree. -/
def c8state : CacheState :=
  ⟨[("files:sub0", ⟨demoCompress "T0", 2⟩)], [], [("sub0", 2)], 0, 0⟩

/-- State with a two-element request list under key `k`. -/
def c10state : CacheState := ⟨[], [("k", ⟨["a", "b"], 2⟩)], [], 0, 0⟩

/-- A 10 KiB string (10240 bytes of `a`). -/
def bigValue : String := String.mk (List.replicate 10240 'a')

/-- Relation between a tenant's list before and after one round-robin
eviction pass: the key is unchanged and at most the head is popped. -/
def PopStep (p q : String × RequestList) : Prop :=
  q.1 = p.1 ∧ (q.2.items = p.2.items ∨ q.2.items = p.2.items.drop 1)

/-- `PopStep` enriched with the pass's `empty_lists` tracking: a list
popped down to empty has its key recorded. -/
def PopStepE (empties : List String) (p q : String × RequestList) : Prop :=
  q.1 = p.1 ∧
    (q.2.items = p.2.items ∨
      (q.2.items = p.2.items.drop 1 ∧ (q.2.items = [] → q.1 ∈ empties)))

/-- Relation between a tenant's list before and after the whole eviction
loop: the key is unchanged, the surviving list is a suffix (only heads
were popped), and a list that is empty afterwards either had its key
recorded in `empty_lists` or was empty to begin with. -/
def DropStepE (empties : List String) (p q : String × RequestList) : Prop :=
  q.1 = p.1 ∧
    ∃ n, q.2.items = p.2.items.drop n ∧
      (q.2.items = [] → (q.1 ∈ empties ∨ p.2.items = []))

/-!
## Helper lemmas
-/

/-- The demo codec round-trips, as gzip does. -/
theorem demoCompress_roundtrip (s : String) :
    demoDecompress (demoCompress s) = some s := by
  simp [demoCompress, demoDecompress, List.map_map, Function.comp_def,
    Char.ofNat_toNat]

example : extract_subdomain_from_key "files:abc" = some "abc" := by decide
example : extract_subdomain_from_key "dns:TXT:_acme-challenge.example.com." =
    some "example" := by decide
example : extract_subdomain_from_key "test_key" = none := by decide

theorem assocFind_assocInsert_self {α : Type} (l : List (String × α))
    (k : String) (v : α) : assocFind (assocInsert l k v) k = some v := by
  induction l with
  | nil => simp [assocInsert, assocFind]
  | cons p rest ih =>
    by_cases h : p.1 = k
    · simp [assocInsert, assocFind, h]
    · simp only [assocInsert, assocFind]
      rw [if_neg h, assocFind, if_neg h]
      exact ih

theorem assocFind_append_some {α : Type} {l₁ l₂ : List (String × α)}
    {k : String} {v : α} (h : assocFind l₁ k = some v) :
    assocFind (l₁ ++ l₂) k = some v := by
  induction l₁ with
  | nil => simp [assocFind] at h
  | cons p rest ih =>
    rw [List.cons_append, assocFind]
    rw [assocFind] at h
    by_cases hp : p.1 = k
    · rw [if_pos hp] at h ⊢
      exact h
    · rw [if_neg hp] at h ⊢
      exact ih h

theorem assocFind_append_none {α : Type} {l₁ : List (String × α)}
    (l₂ : List (String × α)) {k : String} (h : assocFind l₁ k = none) :
    assocFind (l₁ ++ l₂) k = assocFind l₂ k := by
  induction l₁ with
  | nil => simp
  | cons p rest ih =>
    by_cases hp : p.1 = k
    · rw [assocFind, if_pos hp] at h
      exact absurd h (by simp)
    · rw [assocFind, if_neg hp] at h
      rw [List.cons_append, assocFind, if_neg hp]
      exact ih h

theorem assocRemove_of_find_none {α : Type} {l : List (String × α)}
    {k : String} (h : assocFind l k = none) : assocRemove l k = l := by
  induction l with
  | nil => rfl
  | cons p rest ih =>
    by_cases hp : p.1 = k
    · rw [assocFind, if_pos hp] at h
      exact absurd h (by simp)
    · rw [assocFind, if_neg hp] at h
      rw [assocRemove, if_neg hp, ih h]

theorem assocFind_eq_none_of_not_mem {α : Type} {l : List (String × α)}
    {k : String} (h : k ∉ l.map Prod.fst) : assocFind l k = none := by
  induction l with
  | nil => rfl
  | cons p rest ih =>
    simp only [List.map_cons, List.mem_cons] at h
    push_neg at h
    rw [assocFind, if_neg (fun hh => h.1 hh.symm)]
    exact ih h.2

theorem not_mem_of_assocFind_eq_none {α : Type} {l : List (String × α)}
    {k : String} (h : assocFind l k = none) : k ∉ l.map Prod.fst := by
  induction l with
  | nil => simp
  | cons p rest ih =>
    by_cases hp : p.1 = k
    · rw [assocFind, if_pos hp] at h
      exact absurd h (by simp)
    · rw [assocFind, if_neg hp] at h
      simp only [List.map_cons, List.mem_cons]
      push_neg
      exact ⟨fun hk => hp hk.symm, ih h⟩

theorem assocRemove_sublist {α : Type} (l : List (String × α)) (k : String) :
    (assocRemove l k).Sublist l := by
  induction l with
  | nil => simp [assocRemove]
  | cons p rest ih =>
    rw [assocRemove]
    by_cases hp : p.1 = k
    · rw [if_pos hp]
      exact List.sublist_cons_self p rest
    · rw [if_neg hp]
      exact ih.cons₂ p

theorem assocFind_assocRemove_self {α : Type} {l : List (String × α)}
    {k : String} (h : (l.map Prod.fst).Nodup) :
    assocFind (assocRemove l k) k = none := by
  induction l with
  | nil => rfl
  | cons p rest ih =>
    simp only [List.map_cons, List.nodup_cons] at h
    rw [assocRemove]
    by_cases hp : p.1 = k
    · rw [if_pos hp]
      exact assocFind_eq_none_of_not_mem (hp ▸ h.1)
    · rw [if_neg hp, assocFind, if_neg hp]
      exact ih h.2

theorem nodup_assocRemove {α : Type} {l : List (String × α)} (k : String)
    (h : (l.map Prod.fst).Nodup) : ((assocRemove l k).map Prod.fst).Nodup :=
  h.sublist ((assocRemove_sublist l k).map Prod.fst)

/-- After a successful `Cache::set`, `Cache::get` returns the stored
value, provided decompression inverts compression on it. -/
theorem set_ok_get (compress : String → List Nat)
    (decompress : List Nat → Option String) (cfg : Config) (st : CacheState)
    (k v : String) (st' : CacheState)
    (hrt : decompress (compress v) = some v)
    (hset : Cache.set compress cfg st k v = Except.ok st') :
    Cache.get decompress st' k = Except.ok (some v) := by
  have hst' : st' = setCore compress st k v v.utf8ByteSize := by
    unfold Cache.set at hset
    rcases hsub : extract_subdomain_from_key k with _ | s <;>
      rw [hsub] at hset <;> simp only [Except.ok.injEq] at hset
    · exact hset.symm
    · split at hset
      · exact absurd hset (by simp)
      · simp only [Except.ok.injEq] at hset
        exact hset.symm
  subst hst'
  unfold Cache.get setCore
  simp only
  rw [assocFind_assocInsert_self]
  simp [hrt]

/-!
## Claims
-/

deriving instance DecidableEq for Except

/-- C1: the specification states that for a wildcard ACME order whose two
authorizations share the TXT name `_acme-challenge.<apex>`, `set_txt`
appends, so that both key authorizations coexist under
`dns:TXT:_acme-challenge.<apex>.`.  The code's `set_txt` delegates to
`Cache::set`, which replaces the stored value: after setting `tokenA` and
then `tokenB` at the same name, only `tokenB` remains.  This evaluation
exhibits the failing input. -/
theorem C1_set_txt_last_write_wins :
    (do
      let st1 ← DnsChallengeHandler.set_txt demoCompress cfg10MB emptyCache
        "_acme-challenge.example.com" "tokenA"
      let st2 ← DnsChallengeHandler.set_txt demoCompress cfg10MB st1
        "_acme-challenge.example.com" "tokenB"
      Cache.get demoDecompress st2 "dns:TXT:_acme-challenge.example.com.") =
      Except.ok (some "tokenB") := by decide

/-- C2: for every key `k` and value `v` for which `set(k, v)` succeeds, a
subsequent `get(k)` returns `Some(v)` — the stored compressed bytes
decompress exactly back to `v` (the round-trip property of the compressor
is the explicit hypothesis `hrt`). -/
theorem C2_set_then_get_returns_value (compress : String → List Nat)
    (decompress : List Nat → Option String) (cfg : Config) (st : CacheState)
    (k v : String) (st' : CacheState)
    (hrt : decompress (compress v) = some v)
    (hset : Cache.set compress cfg st k v = Except.ok st') :
    Cache.get decompress st' k = Except.ok (some v) :=
  set_ok_get compress decompress cfg st k v st' hrt hset

/-- Witness for C2 at a 10 KiB value. -/
theorem C2_witness :
    demoDecompress (demoCompress bigValue) = some bigValue ∧
    Cache.set demoCompress cfg10MB emptyCache "test_key" bigValue =
      Except.ok (setCore demoCompress emptyCache "test_key" bigValue
        bigValue.utf8ByteSize) ∧
    Cache.get demoDecompress
      (setCore demoCompress emptyCache "test_key" bigValue bigValue.utf8ByteSize)
      "test_key" = Except.ok (some bigValue) :=
  ⟨demoCompress_roundtrip bigValue, rfl,
    C2_set_then_get_returns_value demoCompress demoDecompress cfg10MB emptyCache
      "test_key" bigValue _ (demoCompress_roundtrip bigValue) rfl⟩

/-- C6: the `ip` field of the stored http observation equals the IP of
the actual TCP peer (`ConnectInfo`), and two requests identical except
for their headers (e.g. differing `X-Forwarded-For`) log the same `ip` —
forwarded headers never influence the logged client IP. -/
theorem C6_logged_ip_is_tcp_peer (env : CatchAllEnv) (addr : SocketAddr)
    (host uriPath : String) (uriQuery : Option String) (method : String)
    (headers1 headers2 : List (String × String)) (bodyBytes : List Nat)
    (subdomain : String) :
    (buildHttpRequestLog env addr host uriPath uriQuery method headers1
      bodyBytes subdomain).ip = some addr.ip ∧
    (buildHttpRequestLog env addr host uriPath uriQuery method headers1
      bodyBytes subdomain).ip =
    (buildHttpRequestLog env addr host uriPath uriQuery method headers2
      bodyBytes subdomain).ip :=
  ⟨rfl, rfl⟩

/-- C9 counterexample: the claim says `new_request` is forwarded as
`request` and `delete_request` as `deleted`; the fan-out task forwards
the original `cmd` unchanged. -/
theorem C9_counterexample_no_canonicalisation :
    forward_broadcast (fun _ => (none : Option String)) "null" ["s1"]
      ⟨"new_request", "s1", "not-json"⟩ = some ⟨"new_request", "null", "s1"⟩ ∧
    ("new_request" : String) ≠ "request" ∧
    forward_broadcast (fun _ => (none : Option String)) "null" ["s1"]
      ⟨"delete_request", "s1", "{}"⟩ = some ⟨"delete_request", "null", "s1"⟩ ∧
    ("delete_request" : String) ≠ "deleted" := by decide

/-- C9 amended: for every broadcast message whose subdomain is in the
socket's subscription set, the forwarded frame carries the data parsed as
JSON (null when malformed) under the message's own `cmd`, passed through
unchanged for every command name. -/
theorem C9_amended_cmd_passthrough {α : Type} (parseJson : String → Option α)
    (nullValue : α) (sessions : List String) (msg : CacheMessage)
    (h : sessions.contains msg.subdomain = true) :
    forward_broadcast parseJson nullValue sessions msg =
      some ⟨msg.cmd, (parseJson msg.data).getD nullValue, msg.subdomain⟩ := by
  unfold forward_broadcast
  rw [if_pos h]

/-- Witness for C9. -/
theorem C9_witness :
    (["s1"] : List String).contains "s1" = true ∧
    forward_broadcast (fun _ => (none : Option String)) "null" ["s1"]
      ⟨"new_request", "s1", "not-json"⟩ = some ⟨"new_request", "null", "s1"⟩ :=
  ⟨by decide, C9_amended_cmd_passthrough _ _ _ _ (by decide)⟩

/-- C7 counterexample: with override `5.6.7.8` stored for the qname the
answer carries TTL 300, not TTL 1 as claimed; and a `%`-separated
override `1.2.3.4%5.6.7.8` is not split — it fails IPv4 parsing as a
whole and produces no answer instead of one randomly chosen address. -/
theorem C7_counterexample_ttl_and_split :
    handle_a_record demoDecompress cfg10MB c7state "test.abcd1234.example.com." =
      ⟨RCode.noerror, [⟨"test.abcd1234.example.com.", 300, (5, 6, 7, 8)⟩]⟩ ∧
    (300 : Nat) ≠ 1 ∧
    handle_a_record demoDecompress cfg10MB c7stateSplit
      "test.abcd1234.example.com." = ⟨RCode.noerror, []⟩ := by decide

/-- C7 amended: for an A query, an override stored under `dns:A:<qname>`
is parsed as a whole as IPv4 (no `%`-split, no random choice) and
answered with TTL 300 and NOERROR; an unparseable override produces an
empty NOERROR answer section; with no override the configured
`server_ip` (or `127.0.0.1` if it does not parse) is answered with
TTL 300 and NOERROR. -/
theorem C7_amended_a_record (decompress : List Nat → Option String)
    (cfg : Config) (st : CacheState) (name v : String)
    (ip : Nat × Nat × Nat × Nat) :
    (dnsCustomRecord decompress st ("dns:A:" ++ name) = some v →
      parseIpv4 v = some ip →
      handle_a_record decompress cfg st name =
        ⟨RCode.noerror, [⟨name, 300, ip⟩]⟩) ∧
    (dnsCustomRecord decompress st ("dns:A:" ++ name) = some v →
      parseIpv4 v = none →
      handle_a_record decompress cfg st name = ⟨RCode.noerror, []⟩) ∧
    (dnsCustomRecord decompress st ("dns:A:" ++ name) = none →
      handle_a_record decompress cfg st name =
        ⟨RCode.noerror,
          [⟨name, 300, (parseIpv4 cfg.server_ip).getD (127, 0, 0, 1)⟩]⟩) := by
  refine ⟨fun h1 h2 => ?_, fun h1 h2 => ?_, fun h1 => ?_⟩
  · simp [handle_a_record, h1, h2]
  · simp [handle_a_record, h1, h2]
  · simp [handle_a_record, h1]

/-- Witness for C7. -/
theorem C7_witness :
    dnsCustomRecord demoDecompress c7state
      ("dns:A:" ++ "test.abcd1234.example.com.") = some "5.6.7.8" ∧
    parseIpv4 "5.6.7.8" = some (5, 6, 7, 8) ∧
    handle_a_record demoDecompress cfg10MB c7state "test.abcd1234.example.com." =
      ⟨RCode.noerror, [⟨"test.abcd1234.example.com.", 300, (5, 6, 7, 8)⟩]⟩ :=
  ⟨by decide, by decide,
    (C7_amended_a_record demoDecompress cfg10MB c7state
      "test.abcd1234.example.com." "5.6.7.8" (5, 6, 7, 8)).1 (by decide) (by decide)⟩

/-- `Cache::set` on a tenant-owned key, written as its quota gate. -/
theorem Cache.set_eq_of_subdomain (compress : String → List Nat) (cfg : Config)
    (st : CacheState) (key value s : String)
    (hsub : extract_subdomain_from_key key = some s) :
    Cache.set compress cfg st key value =
      (if cfg.max_subdomain_size_bytes <
          getSubdomainSize st s + value.utf8ByteSize then
        Except.error (CacheError.quotaExceeded s)
      else Except.ok (setCore compress st key value value.utf8ByteSize)) := by
  unfold Cache.set
  rw [hsub]

/-- The accounted size of a tenant after one `update_subdomain_size`. -/
theorem getD_updateSubdomainSize (sizes : List (String × Nat)) (s : String)
    (delta : Int) :
    (assocFind (updateSubdomainSize sizes s delta) s).getD 0 =
      (if 0 ≤ delta then
        usizeSatAdd ((assocFind sizes s).getD 0) delta.toNat
      else ((assocFind sizes s).getD 0) - (-delta).toNat) := by
  unfold updateSubdomainSize
  rw [assocFind_assocInsert_self]
  rfl

/-- C4 counterexample: tenant `sub` has an 8-byte entry at `files:sub`
and an accounted size of 8; under a 10-byte cap, replacing it with a
6-byte value fails with the quota error although the claim's condition
(total minus the old size plus the new size, i.e. 6 ≤ 10) says the write
should succeed — the quota gate does not subtract the replaced entry. -/
theorem C4_counterexample_replacement_quota :
    Cache.set demoCompress cfgQuota10 c4state "files:sub" "123456" =
      Except.error (CacheError.quotaExceeded "sub") ∧
    getSubdomainSize c4state "sub" -
        (((assocFind c4state.kv_store "files:sub").map
          KvEntry.uncompressed_size).getD 0) +
        ("123456" : String).utf8ByteSize ≤
      cfgQuota10.max_subdomain_size_bytes := by decide

/-- C4 amended: for a tenant-owned key that is already present,
`set(k, v)` fails with the quota error if and only if the tenant's
current accounted total (the old entry's size NOT subtracted) plus the
new uncompressed size exceeds the cap; on a successful replacement the
accounting does subtract the old uncompressed size and add the new one
(with `usize` saturation). -/
theorem C4_amended_quota_and_accounting (compress : String → List Nat)
    (cfg : Config) (st : CacheState) (key value s : String) (old : KvEntry)
    (hsub : extract_subdomain_from_key key = some s)
    (hold : assocFind st.kv_store key = some old)
    (hbound : getSubdomainSize st s < USIZE) :
    (Cache.set compress cfg st key value =
        Except.error (CacheError.quotaExceeded s) ↔
      cfg.max_subdomain_size_bytes <
        getSubdomainSize st s + value.utf8ByteSize) ∧
    (¬ cfg.max_subdomain_size_bytes <
        getSubdomainSize st s + value.utf8ByteSize →
      ∃ st', Cache.set compress cfg st key value = Except.ok st' ∧
        getSubdomainSize st' s =
          usizeSatAdd (getSubdomainSize st s - old.uncompressed_size)
            value.utf8ByteSize) := by
  rw [Cache.set_eq_of_subdomain compress cfg st key value s hsub]
  constructor
  · by_cases hq :
        cfg.max_subdomain_size_bytes < getSubdomainSize st s + value.utf8ByteSize
    · rw [if_pos hq]
      simp [hq]
    · rw [if_neg hq]
      simp [hq]
  · intro hq
    refine ⟨setCore compress st key value value.utf8ByteSize, ?_, ?_⟩
    · rw [if_neg hq]
    · unfold setCore getSubdomainSize
      simp only [hold, hsub]
      rw [getD_updateSubdomainSize, getD_updateSubdomainSize]
      unfold getSubdomainSize at hbound
      rcases Nat.eq_zero_or_pos old.uncompressed_size with h0 | h0
      · rw [h0]
        rw [if_pos (by omega), if_pos (by omega)]
        simp only [Nat.cast_zero, neg_zero, Int.toNat_zero, Int.toNat_natCast,
          Nat.sub_zero]
        have hx : usizeSatAdd ((assocFind st.subdomain_sizes s).getD 0) 0 =
            (assocFind st.subdomain_sizes s).getD 0 := by
          unfold usizeSatAdd USIZE
          unfold USIZE at hbound
          omega
        rw [hx]
      · rw [if_pos (show (0 : Int) ≤ (value.utf8ByteSize : Int) by omega)]
        rw [if_neg (show ¬ (0 : Int) ≤ -(old.uncompressed_size : Int) by omega)]
        simp only [neg_neg, Int.toNat_natCast]

/-- Witness for C4's amended statement. -/
theorem C4_witness :
    extract_subdomain_from_key "files:sub" = some "sub" ∧
    assocFind c4state.kv_store "files:sub" = some c4entryOld ∧
    getSubdomainSize c4state "sub" < USIZE ∧
    ¬ cfgQuota10.max_subdomain_size_bytes <
        getSubdomainSize c4state "sub" + ("12" : String).utf8ByteSize ∧
    ∃ st', Cache.set demoCompress cfgQuota10 c4state "files:sub" "12" =
        Except.ok st' ∧
      getSubdomainSize st' "sub" =
        usizeSatAdd (getSubdomainSize c4state "sub" - c4entryOld.uncompressed_size)
          ("12" : String).utf8ByteSize :=
  ⟨by decide, by decide, by decide, by decide,
    (C4_amended_quota_and_accounting demoCompress cfgQuota10 c4state "files:sub"
      "12" "sub" c4entryOld (by decide) (by decide) (by decide)).2 (by decide)⟩

/-- C8 counterexample: a full-replace `PUT /api/v2/files` whose tree
lacks `index.html` is not rejected — the v2 handler answers 200 and
stores the tree as given, deleting the previously present `index.html`. -/
theorem C8_counterexample_put_deletes_index_html :
    (update_files_v2 demoCompress demoSerializeTree cfg10MB c8state "sub0"
      c8treeNoIndex).2 = 200 ∧
    Cache.get demoDecompress
      (update_files_v2 demoCompress demoSerializeTree cfg10MB c8state "sub0"
        c8treeNoIndex).1 "files:sub0" =
      Except.ok (some (demoSerializeTree c8treeNoIndex)) ∧
    demoParseTree (demoSerializeTree c8treeNoIndex) = some c8treeNoIndex ∧
    assocFind c8treeNoIndex.files "index.html" = none := by decide

/-- C8 amended: the v2 full-replace `PUT /api/v2/files` performs no
`index.html` check — it always answers 200 and, when the store write
succeeds, stores exactly the given tree; the invariant is only restored
on read: `GET /api/v2/files` auto-recreates the minimal default when
`index.html` is missing (provided the default write is not rejected,
e.g. by quota), so its result always contains `index.html`. -/
theorem C8_amended_no_write_check_read_recreates (compress : String → List Nat)
    (decompress : List Nat → Option String) (serialize : FileTree → String)
    (parseTree : String → Option FileTree) (b64e : String → String)
    (cfg : Config) (st : CacheState) (sub : String) (files : FileTree)
    (st1 : CacheState) :
    ((update_files_v2 compress serialize cfg st sub files).2 = 200) ∧
    (∀ st', Cache.set compress cfg st ("files:" ++ sub) (serialize files) =
        Except.ok st' →
      (update_files_v2 compress serialize cfg st sub files).1 = st') ∧
    (write_basic_file compress serialize b64e cfg st sub = Except.ok st1 →
      decompress (compress (serialize (defaultFileTree b64e cfg))) =
        some (serialize (defaultFileTree b64e cfg)) →
      parseTree (serialize (defaultFileTree b64e cfg)) =
        some (defaultFileTree b64e cfg) →
      assocFind
        (get_files_v2 compress decompress serialize parseTree b64e cfg st
          sub).2.files "index.html" ≠ none) := by
  refine ⟨rfl, fun st' hset => ?_, fun hw hc hp => ?_⟩
  · unfold update_files_v2
    rw [hset]
  · unfold get_files_v2
    by_cases hcond :
        (fetchFileTree decompress parseTree st ("files:" ++ sub)).files.isEmpty ∨
        assocFind (fetchFileTree decompress parseTree st
          ("files:" ++ sub)).files "index.html" = none
    · rw [if_pos hcond]
      simp only [hw]
      have hget : Cache.get decompress st1 ("files:" ++ sub) =
          Except.ok (some (serialize (defaultFileTree b64e cfg))) :=
        set_ok_get compress decompress cfg st ("files:" ++ sub)
          (serialize (defaultFileTree b64e cfg)) st1 hc hw
      unfold fetchFileTree
      rw [hget]
      simp only [hp, Option.getD_some]
      simp [defaultFileTree, assocFind]
    · rw [if_neg hcond]
      push_neg at hcond
      exact hcond.2

/-- Witness for C8's amended statement. -/
theorem C8_witness :
    ∃ st1,
      write_basic_file demoCompress demoSerializeTree demoB64 cfg10MB emptyCache
        "sub0" = Except.ok st1 ∧
      demoDecompress (demoCompress
        (demoSerializeTree (defaultFileTree demoB64 cfg10MB))) =
        some (demoSerializeTree (defaultFileTree demoB64 cfg10MB)) ∧
      demoParseTree (demoSerializeTree (defaultFileTree demoB64 cfg10MB)) =
        some (defaultFileTree demoB64 cfg10MB) ∧
      assocFind
        (get_files_v2 demoCompress demoDecompress demoSerializeTree demoParseTree
          demoB64 cfg10MB emptyCache "sub0").2.files "index.html" ≠ none :=
  ⟨_, rfl, demoCompress_roundtrip _, by decide,
    (C8_amended_no_write_check_read_recreates demoCompress demoDecompress
      demoSerializeTree demoParseTree demoB64 cfg10MB emptyCache "sub0"
      c8treeNoIndex _).2.2 rfl (demoCompress_roundtrip _) (by decide)⟩

/-- C10: for a non-empty request list of length `len` and a stop index
with `len + stop < 0` (within `isize` range, `len` within `usize`
practice), `lrange(key, 0, stop)` returns the entire list: the negative
adjusted stop wraps when cast to `usize` and is then clamped to
`len - 1`, instead of producing an empty slice. -/
theorem C10_lrange_negative_stop_returns_all (st : CacheState) (key : String)
    (entry : RequestList) (stop : Int)
    (hfind : assocFind st.request_store key = some entry)
    (hne : 0 < entry.items.length)
    (hneg : (entry.items.length : Int) + stop < 0)
    (hstop : -(9223372036854775808 : Int) ≤ stop)
    (hlen : entry.items.length < 9223372036854775808) :
    Cache.lrange st key 0 stop = entry.items := by
  have hstopneg : stop < 0 := by omega
  simp only [Cache.lrange, hfind]
  rw [if_neg (show ¬ (0 : Int) < 0 by omega), if_pos hstopneg]
  have h0 : intToUsize 0 = 0 := by decide
  rw [h0]
  have h3 : intToUsize ((entry.items.length : Int) + stop) =
      ((entry.items.length : Int) + stop + 18446744073709551616).toNat := by
    unfold intToUsize USIZE
    omega
  rw [h3]
  have h4 : min (((entry.items.length : Int) + stop + 18446744073709551616).toNat)
      (entry.items.length - 1) = entry.items.length - 1 := by
    omega
  rw [h4]
  rw [if_pos (by omega)]
  rw [List.drop_zero]
  have h5 : entry.items.length - 1 - 0 + 1 = entry.items.length := by omega
  rw [h5, List.take_length]

/-- Witness for C10. -/
theorem C10_witness :
    assocFind c10state.request_store "k" = some ⟨["a", "b"], 2⟩ ∧
    0 < (["a", "b"] : List String).length ∧
    ((["a", "b"] : List String).length : Int) + (-5) < 0 ∧
    -(9223372036854775808 : Int) ≤ -5 ∧
    (["a", "b"] : List String).length < 9223372036854775808 ∧
    Cache.lrange c10state "k" 0 (-5) = ["a", "b"] :=
  ⟨by decide, by decide, by decide, by decide, by decide,
    C10_lrange_negative_stop_returns_all c10state "k" ⟨["a", "b"], 2⟩ (-5)
      (by decide) (by decide) (by decide) (by decide) (by decide)⟩

theorem forall2_trans {α β γ : Type} {R : α → β → Prop} {S : β → γ → Prop}
    {T : α → γ → Prop} (h : ∀ a b c, R a b → S b c → T a c) :
    ∀ {l₁ : List α} {l₂ : List β} {l₃ : List γ},
      List.Forall₂ R l₁ l₂ → List.Forall₂ S l₂ l₃ → List.Forall₂ T l₁ l₃ := by
  intro l₁ l₂ l₃ h₁
  induction h₁ generalizing l₃ with
  | nil =>
    intro h₂
    cases h₂
    exact List.Forall₂.nil
  | cons hr _ ih =>
    intro h₂
    cases h₂ with
    | cons hs hrest => exact List.Forall₂.cons (h _ _ _ hr hs) (ih hrest)

theorem forall2_exists_mem {α β : Type} {R : α → β → Prop} :
    ∀ {l₁ : List α} {l₂ : List β}, List.Forall₂ R l₁ l₂ → ∀ {x : β}, x ∈ l₂ →
      ∃ y ∈ l₁, R y x := by
  intro l₁ l₂ h
  induction h with
  | nil =>
    intro x hx
    cases hx
  | cons hr _ ih =>
    intro x hx
    rcases List.mem_cons.mp hx with h1 | h2
    · exact ⟨_, List.mem_cons_self _ _, h1 ▸ hr⟩
    · obtain ⟨y, hy, hr2⟩ := ih h2
      exact ⟨y, List.mem_cons_of_mem _ hy, hr2⟩

/-- One eviction pass pops at most the head of each list and records the
lists it empties. -/
theorem evictPass_popstepE (t : Nat) :
    ∀ (store : List (String × RequestList)) (f : Nat),
      List.Forall₂ (PopStepE (evictPass t store f).empties) store
        (evictPass t store f).store := by
  intro store
  induction store with
  | nil =>
    intro f
    simp only [evictPass]
    exact List.Forall₂.nil
  | cons p rest ih =>
    intro f
    obtain ⟨k, e⟩ := p
    by_cases hf : t ≤ f
    · simp only [evictPass, if_pos hf]
      exact List.forall₂_same.mpr (fun x _ => ⟨rfl, Or.inl rfl⟩)
    · cases hitems : e.items with
      | nil =>
        simp only [evictPass, if_neg hf, hitems]
        exact List.Forall₂.cons ⟨rfl, Or.inl rfl⟩ (ih _)
      | cons oldest tl =>
        simp only [evictPass, if_neg hf, hitems]
        refine List.Forall₂.cons ⟨rfl, Or.inr ⟨by simp [hitems], ?_⟩⟩
          ((ih _).imp ?_)
        · intro htl
          have htl' : tl = [] := htl
          simp [htl']
        · intro a b hab
          exact ⟨hab.1, hab.2.elim Or.inl (fun hx =>
            Or.inr ⟨hx.1, fun he => List.mem_append_right _ (hx.2 he)⟩)⟩

/-- The eviction loop only ever appends to the `empty_lists` accumulator. -/
theorem evictLoop_empties_prefix (t : Nat) :
    ∀ (fuel : Nat) (store : List (String × RequestList)) (f c : Nat)
      (E : List String),
      ∃ tail, (evictLoop t fuel store f c E).2.2.2 = E ++ tail := by
  intro fuel
  induction fuel with
  | zero =>
    intro store f c E
    exact ⟨[], by simp [evictLoop]⟩
  | succ fuel ih =>
    intro store f c E
    by_cases hf : f < t
    · simp only [evictLoop, if_pos hf]
      by_cases hp : (evictPass t store f).progress = true
      · rw [if_pos hp]
        obtain ⟨tail, htail⟩ := ih (evictPass t store f).store
          (evictPass t store f).freed (c + (evictPass t store f).count)
          (E ++ (evictPass t store f).empties)
        exact ⟨(evictPass t store f).empties ++ tail,
          by rw [htail, List.append_assoc]⟩
      · rw [if_neg hp]
        exact ⟨(evictPass t store f).empties, rfl⟩
    · simp only [evictLoop, if_neg hf]
      exact ⟨[], by simp⟩

/-- Across the whole eviction loop every tenant's list becomes a suffix
of its original, and a list that ends up empty is recorded unless it was
empty at the start. -/
theorem evictLoop_rel (t : Nat) :
    ∀ (fuel : Nat) (store : List (String × RequestList)) (f c : Nat)
      (E : List String),
      List.Forall₂ (DropStepE (evictLoop t fuel store f c E).2.2.2) store
        (evictLoop t fuel store f c E).1 := by
  intro fuel
  induction fuel with
  | zero =>
    intro store f c E
    simp only [evictLoop]
    exact List.forall₂_same.mpr
      (fun x _ => ⟨rfl, 0, (List.drop_zero _).symm, fun hx => Or.inr hx⟩)
  | succ fuel ih =>
    intro store f c E
    by_cases hf : f < t
    · simp only [evictLoop, if_pos hf]
      by_cases hp : (evictPass t store f).progress = true
      · rw [if_pos hp]
        have hpass := evictPass_popstepE t store f
        have hloop := ih (evictPass t store f).store (evictPass t store f).freed
          (c + (evictPass t store f).count) (E ++ (evictPass t store f).empties)
        obtain ⟨tail, htail⟩ := evictLoop_empties_prefix t fuel
          (evictPass t store f).store (evictPass t store f).freed
          (c + (evictPass t store f).count) (E ++ (evictPass t store f).empties)
        refine forall2_trans ?_ hpass hloop
        intro a b c' hab hbc
        refine ⟨hbc.1.trans hab.1, ?_⟩
        obtain ⟨n, hn, hempty⟩ := hbc.2
        rcases hab.2 with h1 | ⟨h1, h2⟩
        · refine ⟨n, by rw [hn, h1], fun hc => ?_⟩
          rcases hempty hc with hce | hbe
          · exact Or.inl hce
          · exact Or.inr (h1 ▸ hbe)
        · refine ⟨n + 1,
            by rw [hn, h1, List.drop_drop, Nat.add_comm 1 n], fun hc => ?_⟩
          rcases hempty hc with hce | hbe
          · exact Or.inl hce
          · refine Or.inl ?_
            rw [htail, hbc.1]
            exact List.mem_append_left tail
              (List.mem_append_right E (h2 hbe))
      · rw [if_neg hp]
        refine (evictPass_popstepE t store f).imp ?_
        intro a b hab
        refine ⟨hab.1, ?_⟩
        rcases hab.2 with h1 | ⟨h1, h2⟩
        · exact ⟨0, by rw [List.drop_zero, h1], fun hb => Or.inr (h1 ▸ hb)⟩
        · exact ⟨1, h1, fun hb => Or.inl (List.mem_append_right E (h2 hb))⟩
    · simp only [evictLoop, if_neg hf]
      exact List.forall₂_same.mpr
        (fun x _ => ⟨rfl, 0, (List.drop_zero _).symm, fun hx => Or.inr hx⟩)

/-- C5: every run of the eviction routine leaves the KV store (files,
DNS overrides, ACME TXT), the per-tenant size map and the memory limit
unchanged; every surviving request list is a suffix of its original list
(only heads were popped); a list that is empty afterwards was already
empty before eviction (lists that become empty are removed); a single
round-robin pass pops at most one element (the head) per tenant; and
`maybe_evict_requests` either does nothing or runs the same routine. -/
theorem C5_eviction_only_pops_request_heads (st : CacheState) (bytes : Nat)
    (cfg : Config) (passStore : List (String × RequestList)) (t f : Nat) :
    ((Cache.evict_oldest_requests st bytes).kv_store = st.kv_store ∧
      (Cache.evict_oldest_requests st bytes).subdomain_sizes =
        st.subdomain_sizes ∧
      (Cache.evict_oldest_requests st bytes).max_memory = st.max_memory) ∧
    (∀ k e', (k, e') ∈ (Cache.evict_oldest_requests st bytes).request_store →
      ∃ e n, (k, e) ∈ st.request_store ∧ e'.items = e.items.drop n) ∧
    (∀ k e', (k, e') ∈ (Cache.evict_oldest_requests st bytes).request_store →
      e'.items = [] → ∃ e, (k, e) ∈ st.request_store ∧ e.items = []) ∧
    List.Forall₂ PopStep passStore (evictPass t passStore f).store ∧
    (Cache.maybe_evict cfg st = st ∨
      ∃ b, Cache.maybe_evict cfg st = Cache.evict_oldest_requests st b) := by
  have hrel := evictLoop_rel bytes (totalItems st.request_store + 1)
    st.request_store 0 0 []
  refine ⟨⟨rfl, rfl, rfl⟩, ?_, ?_, ?_, ?_⟩
  · intro k e' hmem
    obtain ⟨hmem1, _⟩ := List.mem_filter.mp hmem
    obtain ⟨⟨y1, y2⟩, hy, hR⟩ := forall2_exists_mem hrel hmem1
    obtain ⟨hk, n, hn, _⟩ := hR
    have hk' : k = y1 := hk
    subst hk'
    exact ⟨y2, n, hy, hn⟩
  · intro k e' hmem hempty
    obtain ⟨hmem1, hpred⟩ := List.mem_filter.mp hmem
    obtain ⟨⟨y1, y2⟩, hy, hR⟩ := forall2_exists_mem hrel hmem1
    obtain ⟨hk, n, hn, hemp⟩ := hR
    have hk' : k = y1 := hk
    subst hk'
    rcases hemp hempty with hin | horig
    · exfalso
      have hnotin : (k, e').1 ∉
          (evictLoop bytes (totalItems st.request_store + 1)
            st.request_store 0 0 []).2.2.2 := by
        simpa using hpred
      exact hnotin hin
    · exact ⟨y2, hy, horig⟩
  · exact (evictPass_popstepE t passStore f).imp
      (fun a b hab => ⟨hab.1, hab.2.elim Or.inl (fun hx => Or.inr hx.1)⟩)
  · unfold Cache.maybe_evict
    by_cases hth : cfg.threshold st.max_memory < st.current_memory
    · rw [if_pos hth]
      exact Or.inr ⟨_, rfl⟩
    · rw [if_neg hth]
      exact Or.inl rfl

/-- Witness for C5 at a concrete state: evicting 1 byte from `c5state`
pops only the head of `requests:a`, and the surviving list is a suffix
of the original. -/
theorem C5_witness :
    ("requests:a", (⟨["q"], 1⟩ : RequestList)) ∈
      (Cache.evict_oldest_requests c5state 1).request_store ∧
    ∃ e n, ("requests:a", e) ∈ c5state.request_store ∧
      (⟨["q"], 1⟩ : RequestList).items = e.items.drop n :=
  ⟨by decide,
    (C5_eviction_only_pops_request_heads c5state 1 cfgCap2 [] 0 0).2.1
      "requests:a" ⟨["q"], 1⟩ (by decide)⟩

theorem assocRemove_append_of_find_none {α : Type} {l : List (String × α)}
    (l' : List (String × α)) {k : String} (h : assocFind l k = none) :
    assocRemove (l ++ l') k = l ++ assocRemove l' k := by
  induction l with
  | nil => simp
  | cons p rest ih =>
    rw [assocFind] at h
    by_cases hp : p.1 = k
    · rw [if_pos hp] at h
      exact absurd h (by simp)
    · rw [if_neg hp] at h
      rw [List.cons_append, assocRemove, if_neg hp, ih h, List.cons_append]

theorem nodup_append_key {α : Type} {l : List (String × α)} (k : String)
    (x : α) (hn : (l.map Prod.fst).Nodup) (habs : assocFind l k = none) :
    (((l ++ [(k, x)]).map Prod.fst)).Nodup := by
  rw [List.map_append]
  refine List.Nodup.append hn (List.nodup_singleton _) ?_
  intro a ha hb
  simp only [List.map_cons, List.map_nil, List.mem_singleton] at hb
  subst hb
  exact (not_mem_of_assocFind_eq_none habs) ha

theorem listBytes_append (l₁ l₂ : List String) :
    listBytes (l₁ ++ l₂) = listBytes l₁ + listBytes l₂ := by
  unfold listBytes
  rw [List.map_append, List.sum_append]

theorem listBytes_cons (a : String) (l : List String) :
    listBytes (a :: l) = a.utf8ByteSize + listBytes l := by
  unfold listBytes
  rw [List.map_cons, List.sum_cons]

theorem llen_eq_itemsOf_length (st : CacheState) (key : String) :
    Cache.llen st key = (itemsOf st key).length := by
  unfold Cache.llen itemsOf
  cases assocFind st.request_store key <;> rfl
theorem assocFind_remove_append_self {α : Type} {l : List (String × α)}
    (k : String) (x : α) (h : (l.map Prod.fst).Nodup) :
    assocFind (assocRemove l k ++ [(k, x)]) k = some x := by
  rw [assocFind_append_none _ (assocFind_assocRemove_self h)]
  simp [assocFind]

theorem assocFind_append_self_of_none {α : Type} {l : List (String × α)}
    (k : String) (x : α) (h : assocFind l k = none) :
    assocFind (l ++ [(k, x)]) k = some x := by
  rw [assocFind_append_none _ h]
  simp [assocFind]

/-- One `rpush` under the no-eviction condition: the returned length, the
resulting items, and the bookkeeping facts threaded through `pushSeq`. -/
theorem rpush_step (cfg : Config) (st : CacheState) (key v : String)
    (L : List String)
    (hnodup : (st.request_store.map Prod.fst).Nodup)
    (hitems : itemsOf st key = L)
    (hlen : L.length ≤ cfg.max_requests_per_session)
    (hmem : st.current_memory ≤ cfg.threshold st.max_memory)
    (hsum : listBytes L ≤ st.current_memory)
    (hov : st.current_memory + v.utf8ByteSize < USIZE) :
    ∃ st' r, Cache.rpush cfg st key v = Except.ok (st', r) ∧
      r = min (L.length + 1) cfg.max_requests_per_session ∧
      itemsOf st' key = (L ++ [v]).drop
        (L.length + 1 - min (L.length + 1) cfg.max_requests_per_session) ∧
      (st'.request_store.map Prod.fst).Nodup ∧
      st'.max_memory = st.max_memory ∧
      st'.current_memory ≤ st.current_memory + v.utf8ByteSize ∧
      listBytes (itemsOf st' key) ≤ st'.current_memory := by
  have hnoev : Cache.maybe_evict cfg st = st := by
    unfold Cache.maybe_evict
    rw [if_neg (by omega)]
  have hUadd : usizeAdd st.current_memory v.utf8ByteSize =
      st.current_memory + v.utf8ByteSize := by
    unfold usizeAdd USIZE
    unfold USIZE at hov
    omega
  have hUsub : ∀ b, b ≤ st.current_memory + v.utf8ByteSize →
      usizeSub (st.current_memory + v.utf8ByteSize) b =
        st.current_memory + v.utf8ByteSize - b := by
    intro b hb
    unfold usizeSub USIZE
    unfold USIZE at hov
    omega
  rcases hfound : assocFind st.request_store key with _ | entry
  · -- key absent: the list is created empty first
    have hL0 : L = [] := by
      unfold itemsOf at hitems
      rw [hfound] at hitems
      simpa using hitems.symm
    subst hL0
    have hfind2 : assocFind (st.request_store ++ [(key, RequestList.mk [] 0)])
        key = some ⟨[], 0⟩ := assocFind_append_self_of_none key _ hfound
    have hrm : assocRemove (st.request_store ++ [(key, RequestList.mk [] 0)])
        key = st.request_store := by
      rw [assocRemove_append_of_find_none _ hfound]
      simp [assocRemove]
    by_cases hcap : cfg.max_requests_per_session < 1
    · -- cap = 0: the pushed element is immediately popped again
      have hmem2 : (if 0 < v.utf8ByteSize then
          usizeSub (usizeAdd st.current_memory v.utf8ByteSize) v.utf8ByteSize
          else usizeAdd st.current_memory v.utf8ByteSize) =
          st.current_memory + v.utf8ByteSize - v.utf8ByteSize := by
        by_cases hv : 0 < v.utf8ByteSize
        · rw [if_pos hv, hUadd, hUsub _ (by omega)]
        · rw [if_neg hv, hUadd]
          omega
      simp only [Cache.rpush, hnoev, hfound, Option.isSome_none,
        Bool.false_eq_true, if_false, hfind2, hrm, List.nil_append]
      rw [if_pos (by simpa using hcap)]
      refine ⟨_, _, rfl, ?_, ?_, ?_, ?_, ?_, ?_⟩
      · simp only [List.length_nil, Nat.zero_add]
        omega
      · unfold itemsOf
        rw [assocFind_append_self_of_none key _ hfound]
        simp only [Option.map_some', Option.getD_some, List.length_nil,
          Nat.zero_add]
        rw [show (1 : Nat) - min 1 cfg.max_requests_per_session = 1 from
          by omega]
        rfl
      · exact nodup_append_key key _ hnodup hfound
      · rfl
      · simp only
        rw [hmem2]
        omega
      · unfold itemsOf
        rw [assocFind_append_self_of_none key _ hfound]
        simp only [Option.map_some', Option.getD_some]
        rw [hmem2]
        rw [show listBytes [] = 0 from rfl]
        omega
    · -- cap ≥ 1: the element stays
      simp only [Cache.rpush, hnoev, hfound, Option.isSome_none,
        Bool.false_eq_true, if_false, hfind2, hrm, List.nil_append]
      rw [if_neg (by simpa using hcap)]
      refine ⟨_, _, rfl, ?_, ?_, ?_, ?_, ?_, ?_⟩
      · simp only [List.length_singleton, List.length_nil, Nat.zero_add]
        omega
      · unfold itemsOf
        rw [assocFind_append_self_of_none key _ hfound]
        simp only [Option.map_some', Option.getD_some, List.length_nil,
          Nat.zero_add]
        rw [show (1 : Nat) - min 1 cfg.max_requests_per_session = 0 from
          by omega]
        rw [List.drop_zero]
      · exact nodup_append_key key _ hnodup hfound
      · rfl
      · simp only
        rw [if_neg (by omega), hUadd]
      · unfold itemsOf
        rw [assocFind_append_self_of_none key _ hfound]
        simp only [Option.map_some', Option.getD_some]
        rw [if_neg (by omega), hUadd]
        rw [show listBytes [v] = v.utf8ByteSize from by
          rw [listBytes_cons, show listBytes [] = 0 from rfl]
          omega]
        omega
  · -- key present with items L
    have hL : entry.items = L := by
      unfold itemsOf at hitems
      rw [hfound] at hitems
      simpa using hitems
    by_cases hcap : cfg.max_requests_per_session < L.length + 1
    · -- pop: here L.length = cap
      rcases L with _ | ⟨a, L'⟩
      · -- L = [], so cap = 0 and the pushed element is popped
        simp only [List.length_nil, Nat.zero_add] at hcap
        have hmem2 : (if 0 < v.utf8ByteSize then
            usizeSub (usizeAdd st.current_memory v.utf8ByteSize) v.utf8ByteSize
            else usizeAdd st.current_memory v.utf8ByteSize) =
            st.current_memory + v.utf8ByteSize - v.utf8ByteSize := by
          by_cases hv : 0 < v.utf8ByteSize
          · rw [if_pos hv, hUadd, hUsub _ (by omega)]
          · rw [if_neg hv, hUadd]
            omega
        simp only [Cache.rpush, hnoev, hfound, Option.isSome_some, if_true,
          hL, List.nil_append]
        rw [if_pos (by simpa using hcap)]
        refine ⟨_, _, rfl, ?_, ?_, ?_, ?_, ?_, ?_⟩
        · simp only [List.length_nil, Nat.zero_add]
          omega
        · unfold itemsOf
          rw [assocFind_remove_append_self key _ hnodup]
          simp only [Option.map_some', Option.getD_some, List.length_nil,
            Nat.zero_add]
          rw [show (1 : Nat) - min 1 cfg.max_requests_per_session = 1 from
            by omega]
          rfl
        · exact nodup_append_key key _ (nodup_assocRemove key hnodup)
            (assocFind_assocRemove_self hnodup)
        · rfl
        · simp only
          rw [hmem2]
          omega
        · unfold itemsOf
          rw [assocFind_remove_append_self key _ hnodup]
          simp only [Option.map_some', Option.getD_some]
          rw [hmem2]
          rw [show listBytes [] = 0 from rfl]
          omega
      · -- L = a :: L', the head a is popped
        have hacap : L'.length + 1 = cfg.max_requests_per_session := by
          simp only [List.length_cons] at hlen hcap
          omega
        have ha : a.utf8ByteSize ≤ st.current_memory := by
          rw [listBytes_cons] at hsum
          omega
        have hmem2 : (if 0 < a.utf8ByteSize then
            usizeSub (usizeAdd st.current_memory v.utf8ByteSize) a.utf8ByteSize
            else usizeAdd st.current_memory v.utf8ByteSize) =
            st.current_memory + v.utf8ByteSize - a.utf8ByteSize := by
          by_cases hv : 0 < a.utf8ByteSize
          · rw [if_pos hv, hUadd, hUsub _ (by omega)]
          · rw [if_neg hv, hUadd]
            omega
        simp only [Cache.rpush, hnoev, hfound, Option.isSome_some, if_true,
          hL, List.cons_append]
        rw [if_pos (by simp only [List.length_cons, List.length_append]; omega)]
        refine ⟨_, _, rfl, ?_, ?_, ?_, ?_, ?_, ?_⟩
        · simp only [List.length_cons, List.length_append, List.length_nil,
            Nat.zero_add]
          omega
        · unfold itemsOf
          rw [assocFind_remove_append_self key _ hnodup]
          simp only [Option.map_some', Option.getD_some, List.length_cons]
          have hone : L'.length + 1 + 1 -
              (L'.length + 1 + 1) ⊓ cfg.max_requests_per_session = 1 := by
            omega
          rw [hone]
          simp
        · exact nodup_append_key key _ (nodup_assocRemove key hnodup)
            (assocFind_assocRemove_self hnodup)
        · rfl
        · dsimp only
          rw [hmem2]
          omega
        · unfold itemsOf
          rw [assocFind_remove_append_self key _ hnodup]
          simp only [Option.map_some', Option.getD_some]
          rw [hmem2]
          rw [listBytes_append]
          rw [show listBytes [v] = v.utf8ByteSize from by
            rw [listBytes_cons, show listBytes [] = 0 from rfl]
            omega]
          rw [listBytes_cons] at hsum
          omega
    · -- no pop
      simp only [Cache.rpush, hnoev, hfound, Option.isSome_some, if_true, hL]
      rw [if_neg (by simpa using hcap)]
      refine ⟨_, _, rfl, ?_, ?_, ?_, ?_, ?_, ?_⟩
      · simp only [List.length_append, List.length_singleton]
        omega
      · unfold itemsOf
        rw [assocFind_remove_append_self key _ hnodup]
        simp only [Option.map_some', Option.getD_some]
        have hz : L.length + 1 -
            (L.length + 1) ⊓ cfg.max_requests_per_session = 0 := by omega
        rw [hz, List.drop_zero]
      · exact nodup_append_key key _ (nodup_assocRemove key hnodup)
          (assocFind_assocRemove_self hnodup)
      · rfl
      · dsimp only
        rw [if_neg (by omega), hUadd]
      · unfold itemsOf
        rw [assocFind_remove_append_self key _ hnodup]
        simp only [Option.map_some', Option.getD_some]
        rw [if_neg (by omega), hUadd]
        rw [listBytes_append]
        rw [show listBytes [v] = v.utf8ByteSize from by
          rw [listBytes_cons, show listBytes [] = 0 from rfl]
          omega]
        omega
/-- Iterated `rpush` under the no-eviction condition: the retained items
are the most recent `min(total, cap)` payloads in insertion order and the
returned lengths follow `min(i + 1, cap)` relative to the initial list. -/
theorem pushSeq_spec (cfg : Config) (key : String) :
    ∀ (vs : List String) (st : CacheState) (L : List String),
    (st.request_store.map Prod.fst).Nodup →
    itemsOf st key = L →
    L.length ≤ cfg.max_requests_per_session →
    listBytes L ≤ st.current_memory →
    st.current_memory + listBytes vs ≤ cfg.threshold st.max_memory →
    cfg.threshold st.max_memory < USIZE →
    ∃ st' rets, Cache.pushSeq cfg st key vs = Except.ok (st', rets) ∧
      itemsOf st' key = (L ++ vs).drop
        (L.length + vs.length -
          min (L.length + vs.length) cfg.max_requests_per_session) ∧
      rets = (List.range vs.length).map
        (fun i => min (L.length + i + 1) cfg.max_requests_per_session) := by
  intro vs
  induction vs with
  | nil =>
    intro st L hnodup hitems hlen hsum hbound hth
    refine ⟨st, [], rfl, ?_, rfl⟩
    rw [List.append_nil, List.length_nil, Nat.add_zero]
    rw [show L.length - min L.length cfg.max_requests_per_session = 0 from
      by omega]
    rw [List.drop_zero, hitems]
  | cons v vs ih =>
    intro st L hnodup hitems hlen hsum hbound hth
    rw [listBytes_cons] at hbound
    obtain ⟨st₁, r, hpush, hr, hitems₁, hnodup₁, hmax₁, hmem₁, hsum₁⟩ :=
      rpush_step cfg st key v L hnodup hitems hlen (by omega) hsum (by omega)
    have hlen₁ : ((L ++ [v]).drop
        (L.length + 1 - min (L.length + 1) cfg.max_requests_per_session)).length
        ≤ cfg.max_requests_per_session := by
      rw [List.length_drop, List.length_append, List.length_singleton]
      omega
    have hbound₁ : st₁.current_memory + listBytes vs ≤
        cfg.threshold st₁.max_memory := by
      rw [hmax₁]
      omega
    have hth₁ : cfg.threshold st₁.max_memory < USIZE := by
      rw [hmax₁]
      exact hth
    rw [hitems₁] at hsum₁
    obtain ⟨st₂, rets, hseq, hitems₂, hrets⟩ :=
      ih st₁ _ hnodup₁ hitems₁ hlen₁ hsum₁ hbound₁ hth₁
    refine ⟨st₂, r :: rets, ?_, ?_, ?_⟩
    · simp only [Cache.pushSeq, hpush, hseq]
    · have hd₁ : L.length + 1 - min (L.length + 1) cfg.max_requests_per_session
          ≤ (L ++ [v]).length := by
        rw [List.length_append, List.length_singleton]
        omega
      rw [hitems₂]
      simp only [List.length_cons]
      rw [List.length_drop, List.length_append, List.length_singleton]
      rw [← List.drop_append_of_le_length hd₁]
      rw [List.drop_drop]
      rw [List.append_assoc, List.singleton_append]
      congr 1
      omega
    · rw [hrets, hr]
      simp only [List.length_drop, List.length_append, List.length_singleton]
      simp only [List.length_cons, List.range_succ_eq_map, List.map_cons,
        List.map_map]
      refine congrArg₂ List.cons (by omega) ?_
      have hfun : (fun i => (L.length + 1 -
          (L.length + 1 - (L.length + 1) ⊓ cfg.max_requests_per_session) + i + 1)
            ⊓ cfg.max_requests_per_session) =
          ((fun i => (L.length + i + 1) ⊓ cfg.max_requests_per_session) ∘
            Nat.succ) := by
        funext i
        simp only [Function.comp_apply]
        omega
      rw [hfun]

/-- C3: starting from a tenant with no request list, pushing N payloads
(under the claim's assumption that memory-pressure eviction never fires,
expressed as the memory counter staying below the eviction threshold
throughout) leaves `llen = min(N, max_requests_per_session)`, retains
exactly the most recently pushed `min(N, max_requests_per_session)`
payloads in insertion order, and each `rpush` returns the list length
after any over-cap head pop, i.e. `min(i + 1, max_requests_per_session)`
for the i-th push. -/
theorem C3_rpush_cap_and_recency (cfg : Config) (st : CacheState)
    (key : String) (vs : List String)
    (hnodup : (st.request_store.map Prod.fst).Nodup)
    (habsent : assocFind st.request_store key = none)
    (hbound : st.current_memory + listBytes vs ≤ cfg.threshold st.max_memory)
    (hth : cfg.threshold st.max_memory < USIZE) :
    ∃ st' rets, Cache.pushSeq cfg st key vs = Except.ok (st', rets) ∧
      Cache.llen st' key = min vs.length cfg.max_requests_per_session ∧
      itemsOf st' key = vs.drop
        (vs.length - min vs.length cfg.max_requests_per_session) ∧
      rets = (List.range vs.length).map
        (fun i => min (i + 1) cfg.max_requests_per_session) := by
  have hitems0 : itemsOf st key = [] := by
    unfold itemsOf
    rw [habsent]
    rfl
  obtain ⟨st', rets, hseq, hitems, hrets⟩ := pushSeq_spec cfg key vs st []
    hnodup hitems0 (by simp) (by simp [listBytes]) hbound hth
  simp only [List.nil_append, List.length_nil, Nat.zero_add] at hitems hrets
  refine ⟨st', rets, hseq, ?_, hitems, hrets⟩
  rw [llen_eq_itemsOf_length, hitems, List.length_drop]
  omega

/-- Witness for C3: pushing three payloads with cap 2 keeps the last
two, in order, and returns lengths 1, 2, 2. -/
theorem C3_witness :
    (emptyCache.request_store.map Prod.fst).Nodup ∧
    assocFind emptyCache.request_store "requests:t" = none ∧
    emptyCache.current_memory + listBytes ["a", "bb", "ccc"] ≤
      cfgCap2.threshold emptyCache.max_memory ∧
    cfgCap2.threshold emptyCache.max_memory < USIZE ∧
    ∃ st' rets,
      Cache.pushSeq cfgCap2 emptyCache "requests:t" ["a", "bb", "ccc"] =
        Except.ok (st', rets) ∧
      Cache.llen st' "requests:t" = min 3 2 ∧
      itemsOf st' "requests:t" = ["a", "bb", "ccc"].drop (3 - min 3 2) ∧
      rets = (List.range 3).map (fun i => min (i + 1) 2) :=
  ⟨by decide, by decide, by decide, by decide,
    C3_rpush_cap_and_recency cfgCap2 emptyCache "requests:t"
      ["a", "bb", "ccc"] (by decide) (by decide) (by decide) (by decide)⟩
